import Mathlib

/-!
Verification of `src/timer.h` (fractal_movie repository).

The header defines a single macro `GET_TIME` with two build-time variants:

* POSIX variant (`#else` branch, lines 50-54):
  ```c
  #define GET_TIME(now) { \
      struct timeval t; \
      gettimeofday(&t, NULL); \
      now = t.tv_sec + t.tv_usec / 1000000.0; \
  }
  ```

* Windows variant (lines 34-48):
  ```c
  static double frequency;

  static void init_frequency() {
      LARGE_INTEGER li;
      QueryPerformanceFrequency(&li);
      frequency = (double)li.QuadPart;
  }

  #define GET_TIME(now) { \
      LARGE_INTEGER li; \
      if (frequency == 0) init_frequency(); \
      QueryPerformanceCounter(&li); \
      now = (double)li.QuadPart / frequency; \
  }
  ```

Shallow embedding: the platform clock facilities are modelled as readings
supplied to each call (a `timeval` plus the `int` status for `gettimeofday`;
a frequency `QuadPart` and a counter `QuadPart` plus the two `BOOL` statuses
for the two `QueryPerformance*` calls).  Floating-point arithmetic is
modelled by exact rational arithmetic over `ℚ`; the process-wide
`static double frequency` (zero-initialized in C) is explicit state of type
`ℚ` threaded through calls.  Division on `ℚ` is total with `x / 0 = 0`,
which matches the embedding's need to evaluate the source expression even
when the guard fails to establish a nonzero divisor; the safety claims about
the divisor are stated separately.
-/

/-- One `struct timeval` as filled in by `gettimeofday`. -/
structure Timeval where
  tv_sec : Int
  tv_usec : Int
deriving DecidableEq, Repr

/-- Everything the POSIX platform facility returns on one call:
the `int` result of `gettimeofday` (0 on success, -1 on failure) and the
filled-in `timeval`.  The source ignores the status. -/
structure PosixReading where
  status : Int
  tv : Timeval
deriving DecidableEq, Repr

/-- POSIX `GET_TIME` (timer.h lines 50-54): the value written into `now`,
namely `t.tv_sec + t.tv_usec / 1000000.0`, in exact rational arithmetic. -/
def posixGET_TIME (r : PosixReading) : ℚ :=
  (r.tv.tv_sec : ℚ) + (r.tv.tv_usec : ℚ) / 1000000

/-- Everything the Windows platform facility returns on one call to
`GET_TIME`: the `BOOL` results and `QuadPart` payloads of
`QueryPerformanceFrequency` and `QueryPerformanceCounter`.
The source ignores both statuses.  (When the call does not execute
`init_frequency`, the frequency fields are simply unused.) -/
structure WinReading where
  freqStatus : Int
  freqQuadPart : Int
  ctrStatus : Int
  ctrQuadPart : Int
deriving DecidableEq, Repr

/-- `init_frequency` (timer.h lines 37-41): the value stored into the
process-wide `frequency`, namely `(double)li.QuadPart` for the
`LARGE_INTEGER` filled in by `QueryPerformanceFrequency`. -/
def init_frequency (r : WinReading) : ℚ :=
  (r.freqQuadPart : ℚ)

/-- Result of one Windows `GET_TIME` call: the `frequency` state after the
call, the value written into `now`, and whether this call executed
`init_frequency` (i.e. queried `QueryPerformanceFrequency`). -/
structure WinCallResult where
  frequency : ℚ
  now : ℚ
  queriedFrequency : Bool
deriving DecidableEq, Repr

/-- Windows `GET_TIME` (timer.h lines 43-48), from `frequency` state `f`:
`if (frequency == 0) init_frequency(); QueryPerformanceCounter(&li);
now = (double)li.QuadPart / frequency;`. -/
def winGET_TIME (f : ℚ) (r : WinReading) : WinCallResult :=
  if f = 0 then
    { frequency := init_frequency r
      now := (r.ctrQuadPart : ℚ) / init_frequency r
      queriedFrequency := true }
  else
    { frequency := f
      now := (r.ctrQuadPart : ℚ) / f
      queriedFrequency := false }

/-- Number of executions of the frequency query over a sequence of
Windows `GET_TIME` calls starting from `frequency` state `f`. -/
def winQueryCount : ℚ → List WinReading → Nat
  | _, [] => 0
  | f, r :: rs =>
    (if (winGET_TIME f r).queriedFrequency then 1 else 0) +
      winQueryCount (winGET_TIME f r).frequency rs

/-- The `frequency` state after a sequence of Windows `GET_TIME` calls
starting from state `f`. -/
def winRunState : ℚ → List WinReading → ℚ
  | f, [] => f
  | f, r :: rs => winRunState (winGET_TIME f r).frequency rs

/-- The divisor used by each call of a sequence of Windows `GET_TIME`
calls starting from state `f` (the call divides by the `frequency` value
in force after its own guard, which equals the call's resulting state). -/
def winRunDivisors : ℚ → List WinReading → List ℚ
  | _, [] => []
  | f, r :: rs =>
    (winGET_TIME f r).frequency :: winRunDivisors (winGET_TIME f r).frequency rs

/-- Caller-visible variables: the macro writes into one caller-supplied
`double` variable, modelled as an index into a store of rationals.
POSIX `GET_TIME(now)` as a store update: only the target variable changes. -/
def posixGET_TIME_store (vars : Nat → ℚ) (target : Nat) (r : PosixReading) :
    Nat → ℚ :=
  fun v => if v = target then posixGET_TIME r else vars v

/-- Windows `GET_TIME(now)` as a store update together with the
`frequency` state change: only the target variable and the cached
`frequency` change. -/
def winGET_TIME_store (f : ℚ) (vars : Nat → ℚ) (target : Nat)
    (r : WinReading) : ℚ × (Nat → ℚ) :=
  let res := winGET_TIME f r
  (res.frequency, fun v => if v = target then res.now else vars v)

/-- Lexicographic order on `timeval` readings: the natural notion of the
platform clock not running backwards between two readings. -/
def Timeval.le (a b : Timeval) : Prop :=
  a.tv_sec < b.tv_sec ∨ (a.tv_sec = b.tv_sec ∧ a.tv_usec ≤ b.tv_usec)

instance (a b : Timeval) : Decidable (Timeval.le a b) := by
  unfold Timeval.le; infer_instance

/-- A `timeval` actually produced by the platform has its microseconds
field in `[0, 999999]`. -/
def Timeval.wf (a : Timeval) : Prop :=
  0 ≤ a.tv_usec ∧ a.tv_usec ≤ 999999

instance (a : Timeval) : Decidable (Timeval.wf a) := by
  unfold Timeval.wf; infer_instance

/-- Second definition, written from the spec's words for the refinement
claim C1: "read both fields in one call and combine as
`seconds + microseconds / 1_000_000`". -/
def specCombine (seconds microseconds : Int) : ℚ :=
  (seconds : ℚ) + (microseconds : ℚ) / 1000000

/-! ## Helper lemmas (shared by several claim proofs) -/

theorem win_step_of_ne {f : ℚ} (h : f ≠ 0) (r : WinReading) :
    winGET_TIME f r =
      { frequency := f, now := (r.ctrQuadPart : ℚ) / f,
        queriedFrequency := false } := by
  unfold winGET_TIME
  rw [if_neg h]

theorem win_step_of_zero (r : WinReading) :
    winGET_TIME 0 r =
      { frequency := (r.freqQuadPart : ℚ),
        now := (r.ctrQuadPart : ℚ) / (r.freqQuadPart : ℚ),
        queriedFrequency := true } := by
  unfold winGET_TIME init_frequency
  rw [if_pos rfl]

theorem win_frequency_of_ne {f : ℚ} (h : f ≠ 0) (r : WinReading) :
    (winGET_TIME f r).frequency = f := by
  rw [win_step_of_ne h]

theorem win_now_eq_div (f : ℚ) (r : WinReading) :
    (winGET_TIME f r).now = (r.ctrQuadPart : ℚ) / (winGET_TIME f r).frequency := by
  unfold winGET_TIME
  split <;> rfl

theorem winQueryCount_eq_zero (rs : List WinReading) :
    ∀ f : ℚ, f ≠ 0 → winQueryCount f rs = 0 := by
  induction rs with
  | nil => intro f _; rfl
  | cons r rs ih =>
    intro f h
    simp only [winQueryCount, win_step_of_ne h]
    simpa using ih f h

theorem winRunState_of_ne (rs : List WinReading) :
    ∀ f : ℚ, f ≠ 0 → winRunState f rs = f := by
  induction rs with
  | nil => intro f _; rfl
  | cons r rs ih =>
    intro f h
    simp only [winRunState, win_step_of_ne h]
    exact ih f h

/-! ## Claim theorems -/

/-- C1: on the POSIX variant, every call to `GET_TIME` obtains a single
seconds/microseconds reading (one `timeval` filled by one `gettimeofday`
call — structurally, `posixGET_TIME` consumes exactly one `PosixReading`)
and the Timestamp it produces equals
`seconds + microseconds / 1_000_000` for that reading. -/
theorem c1_posix_combines_single_reading (r : PosixReading) :
    posixGET_TIME r = specCombine r.tv.tv_sec r.tv.tv_usec := rfl

/-- C2: on the Windows variant, every call to `GET_TIME` reads the current
tick count and the Timestamp it produces equals that tick count divided by
the cached frequency value (the `frequency` state in force after the
call's lazy-initialization guard). -/
theorem c2_win_ticks_div_frequency (f : ℚ) (r : WinReading) :
    (winGET_TIME f r).now = (r.ctrQuadPart : ℚ) / (winGET_TIME f r).frequency := by
  unfold winGET_TIME
  split <;> rfl

/-- C5: `GET_TIME` signals no errors: it is a total function of the
platform reading (a Timestamp is produced for every reading, failure
indications included), and its result never depends on the
success/failure statuses returned by the platform facilities —
so the source never inspects, propagates, or branches on them. -/
theorem c5_ignores_platform_status :
    (∀ (s1 s2 : Int) (tv : Timeval),
      posixGET_TIME ⟨s1, tv⟩ = posixGET_TIME ⟨s2, tv⟩) ∧
    (∀ (f : ℚ) (fs1 fs2 cs1 cs2 fq cq : Int),
      winGET_TIME f ⟨fs1, fq, cs1, cq⟩ = winGET_TIME f ⟨fs2, fq, cs2, cq⟩) :=
  ⟨fun _ _ _ => rfl, fun _ _ _ _ _ _ _ => rfl⟩

/-- C7: `now()` takes no inputs: with the same platform reading (and, on
the Windows variant, the same cached `frequency` state), the Timestamp
written into the caller's variable is identical regardless of the prior
contents of the caller's store, and on the Windows variant the resulting
`frequency` state is too. -/
theorem c7_independent_of_caller_store :
    (∀ (vars1 vars2 : Nat → ℚ) (target : Nat) (r : PosixReading),
      posixGET_TIME_store vars1 target r target =
        posixGET_TIME_store vars2 target r target) ∧
    (∀ (f : ℚ) (vars1 vars2 : Nat → ℚ) (target : Nat) (r : WinReading),
      (winGET_TIME_store f vars1 target r).2 target =
          (winGET_TIME_store f vars2 target r).2 target ∧
        (winGET_TIME_store f vars1 target r).1 =
          (winGET_TIME_store f vars2 target r).1) := by
  constructor
  · intro vars1 vars2 target r
    simp [posixGET_TIME_store]
  · intro f vars1 vars2 target r
    constructor
    · simp [winGET_TIME_store]
    · rfl

/-- C3 counterexample: the claim "for every sequence of calls, after the
first call the platform frequency facility is never queried again" fails
on the code when `QueryPerformanceFrequency` stores `QuadPart = 0`: the
guard `if (frequency == 0)` then re-runs `init_frequency` on the second
call, so the query executes twice in a two-call sequence. -/
theorem c3_counterexample :
    winQueryCount 0 [⟨1, 0, 1, 5⟩, ⟨1, 0, 1, 6⟩] = 2 ∧
      ¬ (winQueryCount 0 [⟨1, 0, 1, 5⟩, ⟨1, 0, 1, 6⟩] ≤ 1) := by
  decide

/-- C3 (amended): provided the first call's frequency query stores a
nonzero value, the frequency query executes exactly once over any
sequence of calls starting from the zero-initialized `frequency` state,
and the cached calibration constant is never recomputed or changed
afterwards (the final state is still the first call's value). -/
theorem c3_frequency_queried_once (r : WinReading) (rs : List WinReading)
    (h : r.freqQuadPart ≠ 0) :
    winQueryCount 0 (r :: rs) = 1 ∧
      winRunState 0 (r :: rs) = (r.freqQuadPart : ℚ) := by
  have hc : (r.freqQuadPart : ℚ) ≠ 0 := Int.cast_ne_zero.mpr h
  constructor
  · simp only [winQueryCount, win_step_of_zero]
    simpa using winQueryCount_eq_zero rs _ hc
  · simp only [winRunState, win_step_of_zero]
    exact winRunState_of_ne rs _ hc

/-- C3 witness: a concrete two-call sequence whose first frequency
reading is 7 queries the frequency exactly once and leaves the cached
constant at 7. -/
theorem c3_frequency_queried_once_witness :
    winQueryCount 0 [⟨1, 7, 1, 5⟩, ⟨1, 9, 1, 6⟩] = 1 ∧
      winRunState 0 [⟨1, 7, 1, 5⟩, ⟨1, 9, 1, 6⟩] = ((7 : Int) : ℚ) :=
  c3_frequency_queried_once ⟨1, 7, 1, 5⟩ [⟨1, 9, 1, 6⟩] (by decide)

/-- C8: the lazy-initialization guard cannot distinguish "uninitialized"
from "frequency equals zero": a call executes the frequency query exactly
when the `frequency` state is 0 at its start, and consequently the query
runs at most once over a whole run (from the zero-initialized state) only
under the hypothesis that every frequency reading the platform would
store is nonzero. -/
theorem c8_guard_is_zero_test :
    (∀ (f : ℚ) (r : WinReading),
      (winGET_TIME f r).queriedFrequency = true ↔ f = 0) ∧
    (∀ rs : List WinReading, (∀ r ∈ rs, r.freqQuadPart ≠ 0) →
      winQueryCount 0 rs ≤ 1) := by
  constructor
  · intro f r
    unfold winGET_TIME
    split <;> simp [*]
  · intro rs h
    match rs with
    | [] => exact Nat.zero_le 1
    | r :: rs =>
      have hc : (r.freqQuadPart : ℚ) ≠ 0 :=
        Int.cast_ne_zero.mpr (h r (List.mem_cons_self r rs))
      simp only [winQueryCount, win_step_of_zero]
      simp [winQueryCount_eq_zero rs _ hc]

/-- C8 witness: at the zero state a concrete call queries the frequency,
and a concrete run with nonzero frequency readings queries at most once. -/
theorem c8_guard_is_zero_test_witness :
    ((winGET_TIME 0 ⟨1, 3, 1, 4⟩).queriedFrequency = true ↔ (0 : ℚ) = 0) ∧
      winQueryCount 0 [⟨1, 3, 1, 4⟩, ⟨1, 3, 1, 9⟩] ≤ 1 :=
  ⟨c8_guard_is_zero_test.1 0 ⟨1, 3, 1, 4⟩,
   c8_guard_is_zero_test.2 [⟨1, 3, 1, 4⟩, ⟨1, 3, 1, 9⟩] (by decide)⟩

/-- Helper for C9: every divisor along a run is positive, provided the
starting state is nonnegative and all frequency readings are positive. -/
theorem winRunDivisors_pos (rs : List WinReading) :
    ∀ f : ℚ, 0 ≤ f → (∀ r ∈ rs, 0 < r.freqQuadPart) →
      ∀ d ∈ winRunDivisors f rs, 0 < d := by
  induction rs with
  | nil =>
    intro f _ _ d hd
    simp [winRunDivisors] at hd
  | cons r rs ih =>
    intro f hf hall d hd
    have hfreq : 0 < (winGET_TIME f r).frequency := by
      by_cases h : f = 0
      · subst h
        have hv : (winGET_TIME 0 r).frequency = (r.freqQuadPart : ℚ) := by
          rw [win_step_of_zero r]
        rw [hv]
        exact_mod_cast hall r (List.mem_cons_self r rs)
      · rw [win_frequency_of_ne h r]
        exact lt_of_le_of_ne hf (Ne.symm h)
    simp only [winRunDivisors, List.mem_cons] at hd
    rcases hd with rfl | hd
    · exact hfreq
    · exact ih (winGET_TIME f r).frequency (le_of_lt hfreq)
        (fun x hx => hall x (List.mem_cons_of_mem r hx)) d hd

/-- C4: monotonic non-decrease of differences on both variants.  POSIX:
if the two `timeval` readings are well-formed and the second is not
lexicographically earlier (no backward clock adjustment), the second
Timestamp is not smaller.  Windows: if the effective frequency of the
first call is positive and the tick counter does not decrease, the
second Timestamp (computed from the state the first call left) is not
smaller. -/
theorem c4_nonneg_difference :
    (∀ r1 r2 : PosixReading, r1.tv.wf → r2.tv.wf → Timeval.le r1.tv r2.tv →
      0 ≤ posixGET_TIME r2 - posixGET_TIME r1) ∧
    (∀ (f : ℚ) (r1 r2 : WinReading),
      0 < (winGET_TIME f r1).frequency →
      r1.ctrQuadPart ≤ r2.ctrQuadPart →
      0 ≤ (winGET_TIME (winGET_TIME f r1).frequency r2).now -
            (winGET_TIME f r1).now) := by
  constructor
  · intro r1 r2 h1 h2 hle
    unfold posixGET_TIME
    rcases hle with hlt | ⟨heq, hule⟩
    · have hs : (r1.tv.tv_sec : ℚ) + 1 ≤ (r2.tv.tv_sec : ℚ) := by
        exact_mod_cast Int.add_one_le_iff.mpr hlt
      have hu1 : (r1.tv.tv_usec : ℚ) ≤ 999999 := by exact_mod_cast h1.2
      have hu2 : (0 : ℚ) ≤ (r2.tv.tv_usec : ℚ) := by exact_mod_cast h2.1
      linarith
    · have hs : (r1.tv.tv_sec : ℚ) = (r2.tv.tv_sec : ℚ) := by exact_mod_cast heq
      have hu : (r1.tv.tv_usec : ℚ) ≤ (r2.tv.tv_usec : ℚ) := by
        exact_mod_cast hule
      linarith
  · intro f r1 r2 hpos hle
    have hne : (winGET_TIME f r1).frequency ≠ 0 := ne_of_gt hpos
    have h2' : (winGET_TIME (winGET_TIME f r1).frequency r2).now =
        (r2.ctrQuadPart : ℚ) / (winGET_TIME f r1).frequency := by
      rw [win_step_of_ne hne r2]
    rw [h2', win_now_eq_div f r1, sub_nonneg]
    exact (div_le_div_iff_of_pos_right hpos).mpr (by exact_mod_cast hle)

/-- C4 witness: concrete non-decreasing readings on each variant give a
nonnegative difference. -/
theorem c4_nonneg_difference_witness :
    0 ≤ posixGET_TIME ⟨0, ⟨2, 100⟩⟩ - posixGET_TIME ⟨0, ⟨1, 999999⟩⟩ ∧
      0 ≤ (winGET_TIME (winGET_TIME 0 ⟨1, 10, 1, 20⟩).frequency
              ⟨1, 10, 1, 30⟩).now -
            (winGET_TIME 0 ⟨1, 10, 1, 20⟩).now :=
  ⟨c4_nonneg_difference.1 ⟨0, ⟨1, 999999⟩⟩ ⟨0, ⟨2, 100⟩⟩
      (by decide) (by decide) (by decide),
   c4_nonneg_difference.2 0 ⟨1, 10, 1, 20⟩ ⟨1, 10, 1, 30⟩
      (by decide) (by decide)⟩

/-- C6: calling `GET_TIME` never mutates any value previously returned:
each call writes only the caller-supplied output variable (plus, on the
Windows variant, the cached `frequency`), so every other variable of the
caller's store — in particular one holding an earlier Timestamp — is
unchanged. -/
theorem c6_no_mutation_of_prior_results :
    (∀ (vars : Nat → ℚ) (target v : Nat) (r : PosixReading), v ≠ target →
      posixGET_TIME_store vars target r v = vars v) ∧
    (∀ (f : ℚ) (vars : Nat → ℚ) (target v : Nat) (r : WinReading),
      v ≠ target → (winGET_TIME_store f vars target r).2 v = vars v) := by
  constructor
  · intro vars target v r h
    simp [posixGET_TIME_store, h]
  · intro f vars target v r h
    simp [winGET_TIME_store, h]

/-- C6 witness: a concrete store location distinct from the written
target keeps its value on both variants. -/
theorem c6_no_mutation_of_prior_results_witness :
    posixGET_TIME_store (fun _ => 5) 0 ⟨0, ⟨1, 2⟩⟩ 1 = (fun _ => (5 : ℚ)) 1 ∧
      (winGET_TIME_store 0 (fun _ => 5) 0 ⟨1, 3, 1, 4⟩).2 1 =
        (fun _ => (5 : ℚ)) 1 :=
  ⟨c6_no_mutation_of_prior_results.1 (fun _ => 5) 0 1 ⟨0, ⟨1, 2⟩⟩ (by decide),
   c6_no_mutation_of_prior_results.2 0 (fun _ => 5) 0 1 ⟨1, 3, 1, 4⟩
      (by decide)⟩

/-- C9: on the Windows variant, if every frequency reading the platform
stores is positive, then the divisor of every call of a run from the
zero-initialized state is nonzero (the division-by-zero case is
unreachable). -/
theorem c9_divisor_nonzero (rs : List WinReading)
    (h : ∀ r ∈ rs, 0 < r.freqQuadPart) :
    ∀ d ∈ winRunDivisors 0 rs, d ≠ 0 :=
  fun d hd => ne_of_gt (winRunDivisors_pos rs 0 le_rfl h d hd)

/-- C9 witness: the divisor of the single call of a concrete run with
frequency reading 2 is nonzero. -/
theorem c9_divisor_nonzero_witness : ((2 : Int) : ℚ) ≠ 0 :=
  c9_divisor_nonzero [⟨1, 2, 1, 3⟩] (by decide) ((2 : Int) : ℚ) (by decide)

/-- C10: on the POSIX variant, for every reading with
`0 ≤ microseconds ≤ 999999` the fractional term lies in `[0, 1)` and the
produced Timestamp lies in `[seconds, seconds + 1)`, over exact rational
arithmetic. -/
theorem c10_timestamp_in_unit_interval (s sec usec : Int)
    (h0 : 0 ≤ usec) (h1 : usec ≤ 999999) :
    (0 ≤ (usec : ℚ) / 1000000 ∧ (usec : ℚ) / 1000000 < 1) ∧
      ((sec : ℚ) ≤ posixGET_TIME ⟨s, ⟨sec, usec⟩⟩ ∧
        posixGET_TIME ⟨s, ⟨sec, usec⟩⟩ < (sec : ℚ) + 1) := by
  have hu0 : (0 : ℚ) ≤ (usec : ℚ) := by exact_mod_cast h0
  have hu1 : (usec : ℚ) ≤ 999999 := by exact_mod_cast h1
  have hf0 : (0 : ℚ) ≤ (usec : ℚ) / 1000000 := by positivity
  have hf1 : (usec : ℚ) / 1000000 < 1 := by
    rw [div_lt_one (by norm_num)]
    linarith
  have hval : posixGET_TIME ⟨s, ⟨sec, usec⟩⟩ =
      (sec : ℚ) + (usec : ℚ) / 1000000 := rfl
  rw [hval]
  exact ⟨⟨hf0, hf1⟩, by linarith, by linarith⟩

/-- C10 witness: the extreme reading with 999999 microseconds stays below
the next second. -/
theorem c10_timestamp_in_unit_interval_witness :
    (0 ≤ ((999999 : Int) : ℚ) / 1000000 ∧
        ((999999 : Int) : ℚ) / 1000000 < 1) ∧
      (((5 : Int) : ℚ) ≤ posixGET_TIME ⟨0, ⟨5, 999999⟩⟩ ∧
        posixGET_TIME ⟨0, ⟨5, 999999⟩⟩ < ((5 : Int) : ℚ) + 1) :=
  c10_timestamp_in_unit_interval 0 5 999999 (by decide) (by decide)
